import Mathlib

/-!
Shallow embedding of the untyped lambda-calculus evaluator from
`src/lambda.hpp` (classes `Variable`, `Abstraction`, `Application` with
`to_string`, `substitute`, `apply`, `reduce`), the fixpoint driver from the
main program, and the draft `Abstraction::apply` from `src/lambda.cpp`.

The C++ mutual recursion between `reduce` and `apply` is not structurally
terminating (`Application::apply` recurses on the result of reducing its own
head, which can grow), so both are embedded with an explicit fuel parameter,
combined into one function `go` that is structural on the fuel: `go n t none`
embeds `t.reduce()` and `go n h (some a)` embeds `h.apply(a)`; `none` is
returned only on fuel exhaustion, i.e. when the C++ recursion would still be
running.
-/

namespace Lambda

/-- The closed set of term shapes: `Variable` (a name), `Abstraction`
(a bound variable name and a body), `Application` (function and argument).
From the class hierarchy in `src/lambda.hpp`. -/
inductive LambdaTerm : Type
  | var : String → LambdaTerm
  | abs : String → LambdaTerm → LambdaTerm
  | app : LambdaTerm → LambdaTerm → LambdaTerm
deriving DecidableEq

/-- Canonical rendering, from the three `to_string` methods:
a variable renders as its name, an abstraction as `(\v.body)`,
an application as `[f a]`. -/
def to_string : LambdaTerm → String
  | .var n => n
  | .abs p b => "(\\" ++ p ++ "." ++ to_string b ++ ")"
  | .app f a => "[" ++ to_string f ++ " " ++ to_string a ++ "]"

/-- Substitution of `t` for the variable named `v`, from the three
`substitute` methods (`Variable::substitute`, `Abstraction::substitute`,
`Application::substitute`).  Variable equality in the source is name
equality (`Variable::operator==`), so the target variable is carried by
name. -/
def substitute : LambdaTerm → String → LambdaTerm → LambdaTerm
  | .var n, v, t => if n = v then t else .var n
  | .abs p b, v, t => if v = p then .abs p b else .abs p (substitute b v t)
  | .app f a, v, t => .app (substitute f v t) (substitute a v t)

/-- `dynamic_cast<Variable*>` test. -/
def isVar : LambdaTerm → Bool
  | .var _ => true
  | _ => false

/-- `dynamic_cast<Application*>` test. -/
def isApp : LambdaTerm → Bool
  | .app _ _ => true
  | _ => false

/-- Combined fueled embedding of the mutually recursive `reduce` and `apply`
methods of `src/lambda.hpp`.  `go n t none` is `t.reduce()`; `go n h (some a)`
is `h.apply(a)`; `none` means the fuel ran out.

Reduce cases (`Variable::reduce`, `Abstraction::reduce`,
`Application::reduce`): a variable reduces to itself; an abstraction reduces
its definition; an application whose function is a bare variable reduces only
its argument, otherwise it delegates to `function->apply(*argument)`.

Apply cases: `Variable::apply` pairs itself with the argument, first reducing
the argument when it is an application (the source then downcasts the reduced
argument to `Application` unconditionally, which is undefined behavior when
the reduct is not an Application; the embedding uses the reduced term
directly, so theorems about this branch are stated only under the condition
that the reduct is an Application — see the C6 and C9 corrections);
`Abstraction::apply` returns a copy of its definition when the
argument renders identically to the bound variable's name and otherwise
substitutes the argument into the definition; `Application::apply` reduces
itself, returns `Application(*this, argument)` when the rendering did not
change, and otherwise recurses with the reduced head. -/
def go : Nat → LambdaTerm → Option LambdaTerm → Option LambdaTerm
  | 0, _, _ => none
  | n + 1, t, none =>
    match t with
    | .var s => some (.var s)
    | .abs p b => (go n b none).map (fun r => .abs p r)
    | .app f a =>
      match f with
      | .var s => (go n a none).map (fun r => .app (.var s) r)
      | _ => go n f (some a)
  | n + 1, h, some arg =>
    match h with
    | .var s =>
      match arg with
      | .app f a => (go n (.app f a) none).map (fun r => .app (.var s) r)
      | _ => some (.app (.var s) arg)
    | .abs p b => if to_string arg = p then some b else some (substitute b p arg)
    | .app f a =>
      (go n (.app f a) none).bind (fun red =>
        if to_string red = to_string (.app f a) then some (.app (.app f a) arg)
        else go n red (some arg))

/-- Fueled `reduce` (the virtual `reduce()` of `src/lambda.hpp`). -/
def reduce (n : Nat) (t : LambdaTerm) : Option LambdaTerm := go n t none

/-- Fueled `apply` (the virtual `apply()` of `src/lambda.hpp`). -/
def apply (n : Nat) (h arg : LambdaTerm) : Option LambdaTerm := go n h (some arg)

/-- The loop of the fixpoint driver in the main program: starting from
`reduced = start.reduce()`, loop while `start` and the current term render
differently; each iteration reduces once more, stops when the rendering no
longer changes, and otherwise continues with the new term.  The first fuel
bounds the number of loop iterations, the second is the fuel given to each
inner `reduce`. -/
def fixLoop : Nat → Nat → LambdaTerm → LambdaTerm → Option LambdaTerm
  | 0, _, _, _ => none
  | k + 1, rf, start, cur =>
    if to_string start = to_string cur then some cur
    else
      (reduce rf cur).bind (fun nxt =>
        if to_string cur = to_string nxt then some cur
        else fixLoop k rf start nxt)

/-- The fixpoint driver of the main program: reduce once, then iterate
`fixLoop`.  One fuel value bounds both the iteration count and each inner
reduction. -/
def runToFixpoint (n : Nat) (start : LambdaTerm) : Option LambdaTerm :=
  (reduce n start).bind (fun r => fixLoop n n start r)

/-- The list of free variable names of a term (a variable is free unless an
enclosing abstraction binds its name). -/
def freeVars : LambdaTerm → List String
  | .var n => [n]
  | .abs p b => (freeVars b).filter (fun s => s ≠ p)
  | .app f a => freeVars f ++ freeVars a

/-- A closed term: no free variables. -/
def Closed (t : LambdaTerm) : Prop := freeVars t = []

/-- `apply` diverges on `(h, a)`: no amount of fuel produces a result,
i.e. the C++ recursion never returns. -/
def ApplyDiverges (h a : LambdaTerm) : Prop := ∀ n, apply n h a = none

/-- The U combinator `\x.[x x]` from `src/lambda.hpp`. -/
def U : LambdaTerm := .abs "x" (.app (.var "x") (.var "x"))

/-- The Omega term `[U U]` from `src/lambda.hpp`. -/
def OMEGA : LambdaTerm := .app U U

/-- The K combinator `\x.(\y.x)` from `src/lambda.hpp`. -/
def K : LambdaTerm := .abs "x" (.abs "y" (.var "x"))

/-- Church numeral two `\f.(\x.[f [f x]])` from `src/lambda.hpp`. -/
def TWO : LambdaTerm := .abs "f" (.abs "x" (.app (.var "f") (.app (.var "f") (.var "x"))))

/-- The successor combinator `\n.(\f.(\x.[f [[n f] x]]))` from
`src/lambda.hpp`. -/
def SUCC : LambdaTerm :=
  .abs "n" (.abs "f" (.abs "x"
    (.app (.var "f") (.app (.app (.var "n") (.var "f")) (.var "x")))))

/-- Church-numeral addition `\m.(\n.[[m SUCC] n])` from `src/lambda.hpp`. -/
def ADD : LambdaTerm :=
  .abs "m" (.abs "n" (.app (.app (.var "m") SUCC) (.var "n")))

/-- A growing self-applicator `\x.[[x x] x]`: applying it to itself produces
a strictly larger term on every step, so `apply` never returns on the head
`[Wgrow Wgrow]`.  (Not a named combinator of the source; it is the
counterexample term for the termination claim about `apply`.) -/
def Wgrow : LambdaTerm := .abs "x" (.app (.app (.var "x") (.var "x")) (.var "x"))

/-- The head `[Wgrow Wgrow]` on which `apply` diverges. -/
def HW : LambdaTerm := .app Wgrow Wgrow

/-- One reduction step of `HW`: `[[Wgrow Wgrow] Wgrow]`. -/
def TW : LambdaTerm := .app HW Wgrow

/-- The draft `Abstraction::apply` of `src/lambda.cpp` (lines 191-204):
always substitutes the argument into the definition. -/
def absApplyCpp (p : String) (b arg : LambdaTerm) : LambdaTerm :=
  substitute b p arg

/-- The `Abstraction::apply` of `src/lambda.hpp` (lines 611-656): skips the
substitution and returns a copy of the definition when the argument renders
identically to the bound variable's name. -/
def absApplyHpp (p : String) (b arg : LambdaTerm) : LambdaTerm :=
  if to_string arg = p then b else substitute b p arg

theorem data_append (s t : String) : (s ++ t).data = s.data ++ t.data := by
  cases s; cases t; rfl

theorem apply_abs_eq (n : Nat) (p : String) (b arg : LambdaTerm) :
    apply (n + 1) (.abs p b) arg =
      if to_string arg = p then some b else some (substitute b p arg) := rfl

theorem substitute_not_free (t : LambdaTerm) (v : String) (r : LambdaTerm)
    (h : v ∉ freeVars t) : substitute t v r = t := by
  induction t with
  | var n =>
    simp only [freeVars, List.mem_singleton] at h
    simp only [substitute]
    rw [if_neg (fun hn => h hn.symm)]
  | abs p b ih =>
    by_cases hp : v = p
    · simp [substitute, hp]
    · have hb : v ∉ freeVars b := by
        intro hm
        exact h (by simp [freeVars, List.mem_filter, hm, hp])
      simp [substitute, hp, ih hb]
  | app f a ihf iha =>
    simp only [freeVars, List.mem_append] at h
    push_neg at h
    simp [substitute, ihf h.1, iha h.2]

theorem closed_render_ne_x (A : LambdaTerm) (hA : Closed A) : to_string A ≠ "x" := by
  cases A with
  | var n => intro _; simp [Closed, freeVars] at hA
  | abs p b =>
    intro h
    have hd := congrArg String.data h
    simp [to_string, data_append] at hd
  | app f a =>
    intro h
    have hd := congrArg String.data h
    simp [to_string, data_append] at hd

theorem go_HW_TW_none :
    ∀ n, (∀ arg, go n HW (some arg) = none) ∧ (∀ arg, go n TW (some arg) = none) := by
  intro n
  induction n using Nat.strong_induction_on with
  | _ n ih =>
    rcases n with _ | n
    · exact ⟨fun _ => rfl, fun _ => rfl⟩
    rcases n with _ | n
    · exact ⟨fun _ => rfl, fun _ => rfl⟩
    rcases n with _ | n
    · exact ⟨fun _ => rfl, fun _ => rfl⟩
    constructor
    · intro arg
      show go (n + 3) HW (some arg) = none
      have h1 : go (n + 3) HW (some arg) = go (n + 2) TW (some arg) := rfl
      rw [h1]
      exact (ih (n + 2) (by omega)).2 arg
    · intro arg
      show go (n + 3) TW (some arg) = none
      have h2 : go (n + 3) TW (some arg) =
          (go (n + 1) HW (some Wgrow)).bind (fun red =>
            if to_string red = to_string TW then some (.app TW arg)
            else go (n + 2) red (some arg)) := rfl
      rw [h2, (ih (n + 1) (by omega)).1 Wgrow]
      rfl

/-- Claim C1: when the Abstraction's bound variable has the same name as the
substitution target, `substitute` returns the Abstraction unchanged with no
substitution inside its body, for every replacement term — including
replacements with a free occurrence of that name; and (second conjunct)
because no alpha-renaming is performed, substituting under a differently
named binder can capture: substituting `y` for `x` inside `\y.x` yields
`\y.y`. -/
theorem c1_substitute_shadowing :
    (∀ (p : String) (b t : LambdaTerm), substitute (.abs p b) p t = .abs p b) ∧
    substitute (.abs "y" (.var "x")) "x" (.var "y") = .abs "y" (.var "y") := by
  constructor
  · intro p b t
    simp [substitute]
  · rfl

/-- Claim C2: `Abstraction::apply` with parameter `p` and body `b` returns a
copy of `b` without substitution when the argument's canonical rendering
equals `p`'s name, and `substitute(b, p, argument)` otherwise. -/
theorem c2_abstraction_apply (n : Nat) (p : String) (b arg : LambdaTerm) :
    apply (n + 1) (.abs p b) arg =
      if to_string arg = p then some b else some (substitute b p arg) := rfl

/-- Claim C3 counterexample: `apply` does not terminate for every finite
head: with `HW = [(\x.[[x x] x]) (\x.[[x x] x])]` as head, every fuel value
is exhausted (the C++ recursion `apply(reduce(head), argument)` keeps growing
the head and never returns). -/
theorem c3_apply_divergence_cex : ApplyDiverges HW (.var "y") :=
  fun n => (go_HW_TW_none n).1 (.var "y")

/-- Claim C3 amended: `apply` terminates in one step and never fails when
the head is an Abstraction, but termination does not hold for every finite
head: there is a finite head and argument on which `apply` diverges. -/
theorem c3_apply_termination_amended :
    (∀ (p : String) (b arg : LambdaTerm), ∃ r, apply 1 (.abs p b) arg = some r) ∧
    ∃ h a : LambdaTerm, ApplyDiverges h a := by
  constructor
  · intro p b arg
    by_cases hc : to_string arg = p
    · exact ⟨b, by rw [apply_abs_eq, if_pos hc]⟩
    · exact ⟨substitute b p arg, by rw [apply_abs_eq, if_neg hc]⟩
  · exact ⟨HW, .var "y", fun n => (go_HW_TW_none n).1 (.var "y")⟩

/-- Claim C4: for `OMEGA = apply(U, U)` with `U = \x.[x x]` (the apply call
returns exactly the stored `OMEGA = [U U]` term), one reduction step
reproduces a term with an identical canonical rendering, so the fixpoint
driver stops after the first comparison instead of looping forever. -/
theorem c4_omega_fixpoint :
    apply 1 U U = some OMEGA ∧
    (∀ n, reduce (n + 2) OMEGA = some OMEGA) ∧
    (∀ n, (reduce (n + 2) OMEGA).map to_string = some (to_string OMEGA)) ∧
    (∀ n, runToFixpoint (n + 2) OMEGA = some OMEGA) :=
  ⟨rfl, fun _ => rfl, fun _ => rfl, fun _ => rfl⟩

/-- Claim C5: `Application::reduce` with a bare Variable in function position
returns a new Application in which only the argument has been reduced;
for any non-Variable function it delegates to `apply(f, a)`. -/
theorem c5_application_reduce :
    (∀ (n : Nat) (s : String) (a : LambdaTerm),
        reduce (n + 1) (.app (.var s) a) =
          (reduce n a).map (fun r => .app (.var s) r)) ∧
    (∀ (n : Nat) (f a : LambdaTerm), isVar f = false →
        reduce (n + 1) (.app f a) = apply n f a) := by
  constructor
  · intro n s a; rfl
  · intro n f a hf
    cases f with
    | var s => simp [isVar] at hf
    | abs p b => rfl
    | app g c => rfl

/-- Witness for C5: the non-Variable branch at a concrete input. -/
theorem c5_application_reduce_witness :
    isVar U = false ∧ reduce 2 (.app U (.var "y")) = apply 1 U (.var "y") :=
  ⟨rfl, c5_application_reduce.2 1 U (.var "y") rfl⟩

/-- Claim C6 counterexample: the claim asserts that applying a Variable head
to any Application argument yields the defined pairing
`Application(head, reduce(argument))`, but for the Application argument
`[(\x.x) y]` the one-step reduct is the bare Variable `y`, not an
Application, so `Variable::apply` reaches its unconditional
`static_cast<const Application&>` with a non-Application object and the C++
behavior there is undefined — not the claimed pairing. -/
theorem c6_variable_apply_cex :
    isApp (.app (.abs "x" (.var "x")) (.var "y")) = true ∧
    reduce 2 (.app (.abs "x" (.var "x")) (.var "y")) = some (.var "y") ∧
    isApp (.var "y") = false :=
  ⟨rfl, rfl, rfl⟩

/-- Claim C6 amended: `Variable::apply` reduces an Application argument
exactly one step before pairing it with the head, provided that one-step
reduct is itself an Application (the only case in which the source's
downcast of the reduct is defined); a Variable or Abstraction argument is
paired with the head as-is. -/
theorem c6_variable_apply_amended :
    (∀ (n : Nat) (s : String) (f a : LambdaTerm) (r : LambdaTerm),
        reduce n (.app f a) = some r → isApp r = true →
        apply (n + 1) (.var s) (.app f a) = some (.app (.var s) r)) ∧
    (∀ (n : Nat) (s : String) (arg : LambdaTerm), isApp arg = false →
        apply (n + 1) (.var s) arg = some (.app (.var s) arg)) := by
  constructor
  · intro n s f a r hr _
    have h1 : apply (n + 1) (.var s) (.app f a) =
        (reduce n (.app f a)).map (fun x => .app (.var s) x) := rfl
    rw [h1, hr]
    rfl
  · intro n s arg h
    cases arg with
    | var t => rfl
    | abs p b => rfl
    | app f a => simp [isApp] at h

/-- Witness for C6 amended: both branches at concrete inputs; the reduced
Application argument `[f w]` stays an Application, and a Variable argument is
paired as-is. -/
theorem c6_variable_apply_amended_witness :
    (reduce 2 (.app (.var "f") (.var "w")) = some (.app (.var "f") (.var "w")) ∧
      isApp (.app (.var "f") (.var "w")) = true ∧
      apply 3 (.var "z") (.app (.var "f") (.var "w")) =
        some (.app (.var "z") (.app (.var "f") (.var "w")))) ∧
    (isApp (.var "w") = false ∧
      apply 1 (.var "z") (.var "w") = some (.app (.var "z") (.var "w"))) :=
  ⟨⟨rfl, rfl, c6_variable_apply_amended.1 2 "z" (.var "f") (.var "w")
      (.app (.var "f") (.var "w")) rfl rfl⟩,
    ⟨rfl, c6_variable_apply_amended.2 0 "z" (.var "w") rfl⟩⟩

/-- Claim C7: for the K combinator and closed terms `A`, `B`, applying
`K` to `A` and then the result to `B` produces exactly `A`, so running the
fixpoint driver on the composite renders identically to running it on `A`. -/
theorem c7_K_combinator (A B : LambdaTerm) (hA : Closed A) (hB : Closed B) :
    ∃ KA T, apply 1 K A = some KA ∧ apply 1 KA B = some T ∧
      ∀ n, (runToFixpoint n T).map to_string = (runToFixpoint n A).map to_string := by
  have hx : to_string A ≠ "x" := closed_render_ne_x A hA
  refine ⟨.abs "y" A, A, ?_, ?_, fun n => rfl⟩
  · show (if to_string A = "x" then some (.abs "y" (.var "x"))
      else some (substitute (.abs "y" (.var "x")) "x" A)) = some (.abs "y" A)
    rw [if_neg hx]
    simp [substitute]
  · show (if to_string B = "y" then some A else some (substitute A "y" B)) = some A
    by_cases hy : to_string B = "y"
    · rw [if_pos hy]
    · have h0 : freeVars A = [] := hA
      rw [if_neg hy, substitute_not_free A "y" B (by rw [h0]; exact List.not_mem_nil "y")]

/-- Witness for C7 at concrete closed terms. -/
theorem c7_K_combinator_witness :
    Closed (.abs "a" (.var "a")) ∧ Closed (.abs "b" (.var "b")) ∧
    ∃ KA T, apply 1 K (.abs "a" (.var "a")) = some KA ∧
      apply 1 KA (.abs "b" (.var "b")) = some T ∧
      ∀ n, (runToFixpoint n T).map to_string =
        (runToFixpoint n (.abs "a" (.var "a"))).map to_string :=
  ⟨rfl, rfl,
    c7_K_combinator (.abs "a" (.var "a")) (.abs "b" (.var "b")) rfl rfl⟩

/-- Claim C8: reducing `[[ADD TWO] TWO]` to the driver's fixpoint yields a
term rendering exactly as Church numeral four. -/
theorem c8_church_addition :
    (runToFixpoint 20 (.app (.app ADD TWO) TWO)).map to_string =
      some "(\\f.(\\x.[f [f [f [f x]]]]))" := by rfl

/-- Claim C9 counterexample: reducing the Application argument
`[(\x.x) y]` yields the bare Variable `y`, not an Application, and
`Variable::apply` on head `z` with that argument does reach the downcasting
branch with this non-Application reduction result. -/
theorem c9_reduce_app_shape_cex :
    reduce 2 (.app (.abs "x" (.var "x")) (.var "y")) = some (.var "y") ∧
    isApp (.var "y") = false ∧
    apply 3 (.var "z") (.app (.abs "x" (.var "x")) (.var "y")) =
      some (.app (.var "z") (.var "y")) :=
  ⟨rfl, rfl, rfl⟩

/-- Claim C9 amended: the downcast precondition holds only when the
Application argument's own function position is a bare Variable: reducing
such an Application always yields an Application. -/
theorem c9_reduce_app_shape_amended (n : Nat) (s : String) (a r : LambdaTerm)
    (h : reduce (n + 1) (.app (.var s) a) = some r) : isApp r = true := by
  have h' : (reduce n a).map (fun x => .app (.var s) x) = some r := h
  cases hr : reduce n a with
  | none => rw [hr] at h'; simp at h'
  | some x =>
    rw [hr] at h'
    simp only [Option.map_some'] at h'
    injection h' with h2
    rw [← h2]
    rfl

/-- Witness for C9 amended at a concrete input. -/
theorem c9_reduce_app_shape_witness : isApp (.app (.var "z") (.var "y")) = true :=
  c9_reduce_app_shape_amended 1 "z" (.var "y") (.app (.var "z") (.var "y")) rfl

/-- Claim C10: the draft `Abstraction::apply` of `src/lambda.cpp` (always
substitute) and the one of `src/lambda.hpp` (skip substitution when the
argument renders identically to the parameter name) produce
rendering-identical results for every parameter, body and argument. -/
theorem c10_apply_drafts_render_equal (p : String) (b arg : LambdaTerm) :
    to_string (absApplyCpp p b arg) = to_string (absApplyHpp p b arg) := by
  unfold absApplyCpp absApplyHpp
  by_cases h : to_string arg = p
  · rw [if_pos h]
    induction b with
    | var n =>
      by_cases hn : n = p
      · simp [substitute, hn, to_string, h]
      · simp [substitute, hn]
    | abs q c ih =>
      by_cases hq : p = q
      · simp [substitute, hq]
      · simp [substitute, hq, to_string, ih]
    | app f a ihf iha =>
      simp [substitute, to_string, ihf, iha]
  · rw [if_neg h]

end Lambda
